import Mathlib

/-!
Verification development for `swaggerize-express-vmt`.

The repository contains two variants of the Express routing glue
(`expressroutes.js`): an older pipeline (plain 405/415/406 responses,
exact header matching) and a newer pipeline (error objects forwarded to
`next`, a per-request `_expressroutes` pass counter, substring matching
over comma-separated header values), plus the top-level `index.js`
mount orchestrator and an offline scaffolding script
(`bin/lib/create.js`).

We shallowly embed the pure decision logic of these functions.
Middlewares are embedded as functions from their configuration and the
relevant request fields to an explicit description of the response
effects they perform (header set, status sent, error object forwarded,
counter change).  JavaScript objects used as string-keyed dictionaries
are embedded as insertion-ordered association lists; JavaScript
truthiness of the values that actually occur (strings, optional
strings) is modelled explicitly.  JavaScript string primitives
(`toLowerCase`, `toUpperCase`, `split`, `includes`, `indexOf` …) are
embedded as executable functions over the character list of a `String`.

Namespace `V1` holds the older pipeline's middlewares, `V2` the newer
pipeline's.  Definitions shared verbatim by both files (`makeValidator`,
`buildRoutePath`, `authorizeFor`, the `expressroutes` registration
loop) are embedded once, at top level.
-/

/-- JavaScript `String.prototype.toLowerCase` on the ASCII strings that
occur here (HTTP methods, header names): lower-case every character. -/
def strToLower (s : String) : String := String.mk (s.data.map Char.toLower)

/-- JavaScript `String.prototype.toUpperCase` on the ASCII strings that
occur here: upper-case every character. -/
def strToUpper (s : String) : String := String.mk (s.data.map Char.toUpper)

/-- Lookup in a JavaScript object modelled as an insertion-ordered
association list (`obj[key]`, yielding `undefined` as `none`). -/
def jsGet {α : Type} : List (String × α) → String → Option α
  | [], _ => none
  | (k', v) :: rest, k => if k' = k then some v else jsGet rest k

/-- Embeds the JavaScript update pattern
`obj[k] = obj[k] || d; obj[k] = f(obj[k])` on an insertion-ordered
association list: the existing binding is updated in place, a missing
binding is appended at the end (JS objects preserve insertion order of
string keys). -/
def jsUpdate {α : Type} : List (String × α) → String → α → (α → α) → List (String × α)
  | [], k, d, f => [(k, f d)]
  | (k', v) :: rest, k, d, f =>
      if k' = k then (k', f v) :: rest else (k', v) :: jsUpdate rest k d f

/-- Does the pattern occur at the head of the list?  (Helper for the
embedding of JavaScript `String.prototype.includes`.) -/
def leadMatch : List Char → List Char → Bool
  | [], _ => true
  | _ :: _, [] => false
  | p :: ps, c :: cs => p = c && leadMatch ps cs

/-- Does the pattern occur contiguously anywhere in the list? -/
def occursIn (pat : List Char) : List Char → Bool
  | [] => leadMatch pat []
  | c :: cs => leadMatch pat (c :: cs) || occursIn pat cs

/-- JavaScript `s.includes(pat)`: the pattern occurs as a contiguous
substring of `s`. -/
def jsIncludes (s pat : String) : Bool :=
  occursIn pat.data s.data

/-- JavaScript `array.filter((v, i, a) => a.indexOf(v) === i)` as used on
the consumes/produces media-type lists: keep an element exactly when its
index is the first index at which its value occurs. -/
def jsDedup (l : List String) : List String :=
  (l.enum.filter (fun iv => l.indexOf iv.2 = iv.1)).map (fun iv => iv.2)

/-- If the separator is a prefix of the list, strip it and return the
remainder (helper for the embedding of `String.prototype.split`). -/
def stripLead : List Char → List Char → Option (List Char)
  | [], l => some l
  | _ :: _, [] => none
  | p :: ps, c :: cs => if p = c then stripLead ps cs else none

/-- Recursion core of the `split` embedding.  The `Nat` argument is
structural-recursion fuel; every call site supplies at least the length
of the character list, which always suffices because each step consumes
at least one character, so the `0, c :: cs` branch is unreachable. -/
def splitSepFuel (s0 : Char) (srest : List Char) : Nat → List Char → List (List Char)
  | _, [] => [[]]
  | 0, l => [l]
  | n + 1, c :: cs =>
    match stripLead (s0 :: srest) (c :: cs) with
    | some rest => [] :: splitSepFuel s0 srest n rest
    | none =>
      match splitSepFuel s0 srest n cs with
      | [] => [[c]]
      | g :: gs => (c :: g) :: gs

/-- JavaScript `s.split(sep)` for a nonempty separator `s0 :: srest`,
over character lists: scan left to right, cutting at each leftmost
occurrence of the separator. -/
def splitSep (s0 : Char) (srest : List Char) (l : List Char) : List (List Char) :=
  splitSepFuel s0 srest l.length l

/-- Splitting of a possibly absent header as done by the newer pipeline:
`headers = headers ? headers.split(', ') : []` (both `undefined` and the
empty string are falsy). -/
def hdrSplit : Option String → List String
  | none => []
  | some s => if s = "" then [] else (splitSep ',' [' '] s.data).map String.mk

/-- Embeds `utils.prefix(str, '/')` from `swaggerize-routes/lib/utils`
(an external dependency of both `expressroutes.js` variants):
`str.indexOf('/') === 0 ? str : '/' + str`, i.e. return the string
unchanged when it already starts with `/`, otherwise prepend it. -/
def prefixSlash (s : String) : String :=
  match s.data with
  | '/' :: _ => s
  | _ => "/" ++ s

/-- Recursion core of the regex-replacement embedding, with
structural-recursion fuel (always called with at least the length of the
list, which suffices because each step consumes at least one
character). -/
def replaceParamsFuel : Nat → List Char → List Char
  | _, [] => []
  | 0, l => l
  | n + 1, c :: rest =>
    if c = '{' then
      match rest.dropWhile (fun x => x ≠ '}') with
      | '}' :: tail =>
        if (rest.takeWhile (fun x => x ≠ '}')).length > 0 then
          ':' :: rest.takeWhile (fun x => x ≠ '}') ++ replaceParamsFuel n tail
        else
          c :: replaceParamsFuel n rest
      | _ => c :: replaceParamsFuel n rest
    else
      c :: replaceParamsFuel n rest

/-- Embeds the regex replacement `path.replace(/{([^}]+)}/g, ':$1')` of
`buildRoutePath`, character by character: a `{` followed by a nonempty
run of non-`}` characters and a closing `}` is rewritten to `:` followed
by that run; anything else is copied. -/
def replaceParams (l : List Char) : List Char :=
  replaceParamsFuel l.length l

/-- Embeds `buildRoutePath` (identical in both `expressroutes.js`
variants): `mountpath + utils.prefix(path.replace(/{([^}]+)}/g, ':$1'), '/')`. -/
def buildRoutePath (mountpath p : String) : String :=
  mountpath ++ prefixSlash (String.mk (replaceParams p.data))

namespace V1

/-- Response effects of the older pipeline's `buildNotAllowedMiddleware`:
`Allow` header set (if any), status sent via `res.sendStatus` (if any);
`next()` is invoked unconditionally in this variant. -/
structure NAOut where
  allow : Option String
  sent : Option Nat
  nextCalled : Bool
deriving DecidableEq

/-- Embeds the older `buildNotAllowedMiddleware`: when the lower-cased
request method is not among the registered methods
(`methods.indexOf(...) === -1`) it sets
`Allow = methods.join(', ').toUpperCase()` and sends status 405; it then
falls through to `next()` either way. -/
def buildNotAllowedMiddleware (methods : List String) (reqMethod : String) : NAOut :=
  if strToLower reqMethod ∈ methods then
    { allow := none, sent := none, nextCalled := true }
  else
    { allow := some (strToUpper (String.intercalate ", " methods))
      sent := some 405
      nextCalled := true }

/-- Embeds the older `validateContentTypeHeaderMiddleware`: for a truthy
`Content-Type` header different from `*/*` and a PATCH/POST/PUT request,
reject with status 415 (and the body's error message) unless the header
is exactly equal (`mediaTypes.indexOf(header)`) to one of
`consumes[method]`.  `none` means the middleware just calls `next()`. -/
def validateContentTypeHeaderMiddleware (consumes : List (String × List String))
    (reqMethod : String) (hdr : Option String) : Option (Nat × String) :=
  let m := strToLower reqMethod
  let mediaTypes := (jsGet consumes m).getD []
  match hdr with
  | some header =>
    if header ≠ "" ∧ header ≠ "*/*" then
      if m = "patch" ∨ m = "post" ∨ m = "put" then
        if header ∈ mediaTypes then none
        else some (415, "Unsupported header Content-Type '" ++ header ++
          "' (valid media types: '" ++ String.intercalate "', '" mediaTypes ++ "')")
      else none
    else none
  | none => none

/-- Embeds the older `validateAcceptHeaderMiddleware`: media types are
`produces[method] || consumes[method] || []`; for a truthy `Accept`
header different from `*/*`, reject with status 406 unless the header is
exactly equal to one of the media types. -/
def validateAcceptHeaderMiddleware (produces consumes : List (String × List String))
    (reqMethod : String) (hdr : Option String) : Option (Nat × String) :=
  let m := strToLower reqMethod
  let mediaTypes :=
    match jsGet produces m with
    | some l => l
    | none => (jsGet consumes m).getD []
  match hdr with
  | some header =>
    if header ≠ "" ∧ header ≠ "*/*" then
      if header ∈ mediaTypes then none
      else some (406, "Unsupported header Accept '" ++ header ++
        "' (valid media types: '" ++ String.intercalate "', '" mediaTypes ++ "')")
    else none
  | none => none

end V1

/-- Error objects built by the newer pipeline's `error(httpStatusCode,
title, description)` helper; `name` is the module-level `errorName`
configuration (threaded explicitly here) with fallback
`'SwaggerizeExpressVmt'`. -/
structure ErrObj where
  status : Nat
  title : String
  description : String
  name : String
deriving DecidableEq

/-- Embeds the newer pipeline's `error` helper. -/
def mkError (errorName : Option String) (httpStatusCode : Nat)
    (title description : String) : ErrObj :=
  { status := httpStatusCode
    title := title
    description := description
    name := errorName.getD "SwaggerizeExpressVmt" }

namespace V2

/-- Response effects of the newer `buildNotAllowedMiddleware`: `Allow`
header, status sent, error object passed to `next`, and the value of the
per-request `req._expressroutes` counter after the middleware (JS
`undefined` is modelled as `0`; both are falsy in every use). -/
structure NAOut where
  allow : Option String
  sent : Option Nat
  nextErr : Option ErrObj
  counter : Nat
deriving DecidableEq

/-- Embeds the newer `buildNotAllowedMiddleware`: on a first traversal
(`!req._expressroutes`) with an unregistered lower-cased method it sets
the `Allow` header, sends 405 and forwards a 405 error object to `next`;
otherwise it increments the pass counter and calls `next()` plainly. -/
def buildNotAllowedMiddleware (errName : Option String) (methods : List String)
    (reqMethod : String) (counter : Nat) : NAOut :=
  if counter = 0 ∧ strToLower reqMethod ∉ methods then
    let joined := strToUpper (String.intercalate ", " methods)
    { allow := some joined
      sent := some 405
      nextErr := some (mkError errName 405 "Method Not Allowed"
        ("Method Not Allowed (valid methods: '" ++ joined ++ "')"))
      counter := counter }
  else
    { allow := none, sent := none, nextErr := none, counter := counter + 1 }

/-- Embeds the newer `validateContentTypeHeaderMiddleware`: the header is
split on `', '`; when `*/*` is not among the parts and the method is
PATCH/POST/PUT, the request is `validated` when some part contains some
entry of `consumes[method]` as a substring; on a first traversal
(`!req._expressroutes`) an unvalidated request gets a 415 error object
forwarded to `next`.  `none` means a plain `next()`. -/
def validateContentTypeHeaderMiddleware (errName : Option String)
    (consumes : List (String × List String)) (reqMethod : String)
    (hdr : Option String) (counter : Nat) : Option ErrObj :=
  let m := strToLower reqMethod
  let mediaTypes := (jsGet consumes m).getD []
  let headers := hdrSplit hdr
  if "*/*" ∉ headers then
    if m = "patch" ∨ m = "post" ∨ m = "put" then
      let validated := headers.any (fun h => mediaTypes.any (fun mt => jsIncludes h mt))
      if counter = 0 ∧ validated = false then
        some (mkError errName 415 "Unsupported Content-Type header"
          ("Unsupported Content-Type header: '" ++ String.intercalate ", " headers ++
            "' (valid media types: '" ++ String.intercalate "', '" mediaTypes ++ "')"))
      else none
    else none
  else none

/-- Embeds the newer `validateAcceptHeaderMiddleware`: media types are
`produces[method] || consumes[method] || []`; the header is split on
`', '`; when `*/*` is not among the parts, a request whose parts contain
no media type as a substring gets a 406 error object forwarded to `next`
(this middleware has no pass-counter guard). -/
def validateAcceptHeaderMiddleware (errName : Option String)
    (produces consumes : List (String × List String)) (reqMethod : String)
    (hdr : Option String) : Option ErrObj :=
  let m := strToLower reqMethod
  let mediaTypes :=
    match jsGet produces m with
    | some l => l
    | none => (jsGet consumes m).getD []
  let headers := hdrSplit hdr
  if "*/*" ∉ headers then
    let validated := headers.any (fun h => mediaTypes.any (fun mt => jsIncludes h mt))
    if validated = false then
      some (mkError errName 406 "Unsupported Accept header"
        ("Unsupported Accept header: '" ++ String.intercalate ", " headers ++
          "' (valid media types: '" ++ String.intercalate "', '" mediaTypes ++ "')"))
    else none
  else none

end V2

/-! ### Validator adapter (`makeValidator` / `validateInput`), identical
in both `expressroutes.js` variants -/
/-- JavaScript primitive values as they reach the validator middleware,
with their truthiness. -/
inductive JsValue
  | undef
  | null
  | boolean (b : Bool)
  | num (n : Int)
  | str (s : String)
deriving DecidableEq

/-- JavaScript truthiness (`!value`) for the modelled values. -/
def JsValue.truthy : JsValue → Bool
  | .undef => false
  | .null => false
  | .boolean b => b
  | .num n => n ≠ 0
  | .str s => s ≠ ""

/-- One entry of a Joi-style `error.details` array. -/
structure JoiDetail where
  message : String
deriving DecidableEq

/-- The error object a validate callback reports: optional `details`
array and `name` (the empty string models a falsy/absent name). -/
structure ValidationError where
  details : Option (List JoiDetail)
  name : String
deriving DecidableEq

/-- The parameter descriptor fields read by the error branch of
`validateInput`. -/
structure Parameter where
  name : String
  required : Bool
deriving DecidableEq

/-- The structured error sent as `res.status(err.status).send({errors: [err]})`. -/
structure ValidatorErr where
  detail : String
  status : Nat
  title : String
deriving DecidableEq

/-- Embeds the error branch of `validateInput` (inside `makeValidator`,
identical in both variants): build
`{detail: error.details && error.details[0] && error.details[0].message
|| 'Validation Error', status: 400, title: error.name || 'Bad Request'}`,
then override to 415 / `'Unsupported Media Type'` when the parameter
name lower-cases to `content-type`, then override to 400 /
`'Missing Value for Required Header'` when the parameter is required and
the accessed value is falsy. -/
def validateInputError (parameter : Parameter) (value : JsValue)
    (e : ValidationError) : ValidatorErr :=
  let detail :=
    match e.details with
    | some (d :: _) => if d.message ≠ "" then d.message else "Validation Error"
    | _ => "Validation Error"
  let base : ValidatorErr :=
    { detail := detail
      status := 400
      title := if e.name ≠ "" then e.name else "Bad Request" }
  let afterCT :=
    if parameter.name ≠ "" ∧ strToLower parameter.name = "content-type" then
      { base with status := 415, title := "Unsupported Media Type" }
    else base
  if parameter.required ∧ value.truthy = false then
    { afterCT with status := 400, title := "Missing Value for Required Header" }
  else afterCT

/-! ### Authorization adapter (`authorizeFor`), identical in both
variants.

`async.some(Object.keys(security), passed, done)` is modelled with the
callbacks completing synchronously in key order: the per-scheme outcome
(callback absent / callback success / callback error) is pre-resolved
for the incoming request, and `async.some` short-circuits at the first
success. -/
/-- Outcome of one named security scheme for the incoming request:
`security[type].authorize` is not a function, or it is one and reports
success, or it reports an error. -/
inductive SchemeResult (ε : Type)
  | noCallback
  | ok
  | fail (e : ε)
deriving DecidableEq

/-- Errors collected by `authorizeFor`: the synthetic
`new Error('Unauthorized.')` pushed when a scheme has no callback, or an
error reported by an authorize callback. -/
inductive CollectedErr (ε : Type)
  | unauthorized
  | fromCb (e : ε)
deriving DecidableEq

/-- The error `passed` pushes onto `errors` for a failing scheme
(callers guarantee the scheme is not `.ok`). -/
def collectOf {ε : Type} : SchemeResult ε → CollectedErr ε
  | .noCallback => .unauthorized
  | .ok => .unauthorized
  | .fail e => .fromCb e

/-- Embeds `async.some(Object.keys(security), passed, done)` with
synchronous callbacks: returns whether some scheme passed, together with
the `errors` array accumulated so far (failing schemes push their error
before reporting `pass(false)`; the first success short-circuits). -/
def asyncSome {ε : Type} : List (SchemeResult ε) → List (CollectedErr ε) →
    Bool × List (CollectedErr ε)
  | [], errs => (false, errs)
  | .ok :: _, errs => (true, errs)
  | s :: rest, errs => asyncSome rest (errs ++ [collectOf s])

/-- Effects of the `done` continuation of `authorizeFor`:
`res.statusCode` when assigned, and the argument passed to `next`
(`errors.shift()` on failure, which is `undefined` = `none` when no
error was collected). -/
structure AuthorizeOut (ε : Type) where
  statusCode : Option Nat
  nextArg : Option (CollectedErr ε)
deriving DecidableEq

/-- Embeds `authorizeFor(security, securityDefinitions)` applied to a
request: on some scheme passing, `next()` plainly; otherwise
`res.statusCode = 401` and `next(errors.shift())`. -/
def authorizeFor {ε : Type} (security : List (SchemeResult ε)) : AuthorizeOut ε :=
  match asyncSome security [] with
  | (true, _) => { statusCode := none, nextArg := none }
  | (false, errs) => { statusCode := some 401, nextArg := errs.head? }

/-! ### Route builder and registration loop (`makeExpressRoute`,
`expressroutes`).

The registration loop is identical in both variants as far as the
modelled effects go: one `router[method]` registration per route and one
`router.use(...)` middleware group per distinct resolved path (the newer
variant merely places one extra middleware, `appendSwaggerDefinitionsToReq`,
inside each group and threads the `errorname` option).  The `mountpath`
(`utils.unsuffix(options.api.basePath, '/')`) is taken as an input. -/
/-- A route handler as found on a spec-derived route object:
`undefined`, a single function, or an array of functions (pre-handlers
followed by the final handler).  Handler functions are identified by
numeric tags. -/
inductive HandlerV
  | undef
  | fn (h : Nat)
  | arr (hs : List Nat)
deriving DecidableEq

/-- A spec-derived route object, with the fields read by
`makeExpressRoute` and `expressroutes`.  Validators are identified by
numeric tags; `security` models the truthiness of `route.security`. -/
structure Route where
  method : String
  path : String
  handler : HandlerV
  validators : List Nat
  consumes : List String
  produces : List String
  security : Bool
deriving DecidableEq

/-- One element of the middleware chain `args` assembled by
`makeExpressRoute`: the authorization middleware, a pre-handler from a
handler array, a validator middleware, or the final handler. -/
inductive ChainItem
  | auth
  | pre (h : Nat)
  | validator (v : Nat)
  | final (h : HandlerV)
deriving DecidableEq

/-- The single `router[route.method].apply(router, args)` registration
performed by `makeExpressRoute`. -/
structure OpReg where
  path : String
  method : String
  chain : List ChainItem
deriving DecidableEq

/-- Embeds `makeExpressRoute(router, mountpath, route, securityDefinitions)`:
resolve the path, push the authorization middleware when the route has a
security requirement, unwrap a handler array (reassigning
`route.handler` to its last element — a mutation of the route object —
and turning the other elements into pre-handlers), append one validator
middleware per declared validator, and register the chain.  Returns the
route object as it is left after the call together with the
registration made. -/
def makeExpressRoute (mountpath : String) (route : Route) : Route × OpReg :=
  let path := buildRoutePath mountpath route.path
  let before0 : List ChainItem := if route.security then [.auth] else []
  let pre1 : List ChainItem :=
    match route.handler with
    | .arr hs => if hs.length > 1 then (hs.dropLast).map ChainItem.pre else []
    | _ => []
  let handler1 : HandlerV :=
    match route.handler with
    | .arr hs =>
      match hs.getLast? with
      | some h => .fn h
      | none => .undef
    | h => h
  let validators := route.validators.map ChainItem.validator
  let chain := before0 ++ pre1 ++ validators ++ [ChainItem.final handler1]
  ({ route with handler := handler1 },
   { path := path, method := route.method, chain := chain })

/-- `routesMethod` accumulation: per resolved path, the lower-cased
methods pushed in route order. -/
def buildMethodMap (mountpath : String) (routes : List Route) :
    List (String × List String) :=
  routes.foldl
    (fun acc r =>
      jsUpdate acc (buildRoutePath mountpath r.path) []
        (fun ms => ms ++ [strToLower r.method]))
    []

/-- One `routesConsumes`/`routesProduces` accumulation step: ensure the
nested objects exist, push the route's media types when nonempty, then
apply the first-occurrence dedup filter. -/
def mediaMapStep (acc : List (String × List (String × List String)))
    (p m : String) (media : List String) :
    List (String × List (String × List String)) :=
  jsUpdate acc p []
    (fun inner =>
      jsUpdate inner m []
        (fun cur => jsDedup (if media.length > 0 then cur ++ media else cur)))

/-- `routesConsumes` accumulation over all routes. -/
def buildConsumesMap (mountpath : String) (routes : List Route) :
    List (String × List (String × List String)) :=
  routes.foldl
    (fun acc r =>
      mediaMapStep acc (buildRoutePath mountpath r.path) (strToLower r.method) r.consumes)
    []

/-- `routesProduces` accumulation over all routes. -/
def buildProducesMap (mountpath : String) (routes : List Route) :
    List (String × List (String × List String)) :=
  routes.foldl
    (fun acc r =>
      mediaMapStep acc (buildRoutePath mountpath r.path) (strToLower r.method) r.produces)
    []

/-- One `router.use(pathRegexp(routePath), ...)` middleware group:
the path it is keyed on and the configuration handed to
`buildNotAllowedMiddleware`, `validateContentTypeHeaderMiddleware` and
`validateAcceptHeaderMiddleware`. -/
structure UseReg where
  path : String
  methods : List String
  consumes : List (String × List String)
  produces : List (String × List String)
deriving DecidableEq

/-- Registrations performed by `expressroutes(router, options)`: the
docs endpoint (`router.get(mountpath + options.docspath, ...)`), one
method-handler registration per route, and one middleware group per key
of `routesMethod`. -/
structure RouterOut where
  docsPath : String
  opRegs : List OpReg
  useRegs : List UseReg
deriving DecidableEq

/-- Embeds the `expressroutes` registration loop: register the docs
endpoint, call `makeExpressRoute` once per route, and attach one
middleware group per distinct resolved path, configured from the
accumulated method/consumes/produces tables. -/
def expressroutes (mountpath docspath : String) (routes : List Route) : RouterOut :=
  { docsPath := mountpath ++ prefixSlash docspath
    opRegs := routes.map (fun r => (makeExpressRoute mountpath r).2)
    useRegs :=
      (buildMethodMap mountpath routes).map
        (fun pm =>
          { path := pm.1
            methods := pm.2
            consumes := (jsGet (buildConsumesMap mountpath routes) pm.1).getD []
            produces := (jsGet (buildProducesMap mountpath routes) pm.1).getD [] }) }

/-! ### Scaffolding tool (`bin/lib/create.js`).

The file system is modelled as the list of paths that exist; the
template contents are not modelled (what matters for the claims is which
paths are created, warned about, and what method list each handler file
is rendered from).  `path.join(a, b)` is modelled as `a ++ "/" ++ b` for
the plain relative segments produced here. -/
/-- One operation of an API path entry, as read by `createHandlers`. -/
structure ApiOperation where
  method : String
  nickname : String
  outType : String
deriving DecidableEq

/-- One API path entry handed to `createHandlers`. -/
structure ApiPath where
  path : String
  operations : List ApiOperation
deriving DecidableEq

/-- One entry of a handler route's `methods` array
(`{method, name, output}`). -/
structure MethodEntry where
  method : String
  name : String
  output : String
deriving DecidableEq

/-- The per-pathname route record accumulated by `createHandlers`. -/
structure HandlerRoute where
  path : String
  pathname : String
  methods : List MethodEntry
deriving DecidableEq

/-- Embeds the pathname normalization of `createHandlers`: split the
path on `/`, keep the truthy elements with `element.indexOf('{') < 0`,
and join with `/`. -/
def pathnameOf (p : String) : String :=
  String.intercalate "/"
    (((splitSep '/' [] p.data).map String.mk).filter
      (fun e => e ≠ "" ∧ '{' ∉ e.data))

/-- The `methods` entries contributed by one API entry
(`{method: operation.method.toLowerCase(), name: operation.nickname,
output: operation.type}`). -/
def methodsOf (api : ApiPath) : List MethodEntry :=
  api.operations.map (fun op => ⟨strToLower op.method, op.nickname, op.outType⟩)

/-- Embeds the grouping loop of `createHandlers`: one route record per
normalized pathname, in first-encounter order; a later API entry with
the same pathname appends its methods to the existing record. -/
def groupRoutes (apis : List ApiPath) : List (String × HandlerRoute) :=
  apis.foldl
    (fun acc api =>
      let pn := pathnameOf api.path
      jsUpdate acc pn { path := api.path, pathname := pn, methods := [] }
        (fun r => { r with methods := r.methods ++ methodsOf api }))
    []

/-- File-system effects of the scaffolding tool. -/
inductive FsEvent
  | warn (p : String)
  | mkdir (p : String)
  | write (p : String)
deriving DecidableEq

/-- `path.join` for the plain relative segments used here. -/
def pathJoin (a b : String) : String := a ++ "/" ++ b

/-- Embeds the body of the write loop of `createHandlers` for one route
record, on the current `(events, existing paths)` state: compute the
target file (creating or warning about the parent directory first when
the pathname has several segments), then write the file if absent and
warn otherwise. -/
def createHandlersStep (handlersPath : String)
    (acc : List FsEvent × List String) (route : HandlerRoute) :
    List FsEvent × List String :=
  let pathnames := (splitSep '/' [] route.pathname.data).map String.mk
  let state1 :=
    if pathnames.length > 1 then
      let dir := pathJoin handlersPath (String.intercalate "/" pathnames.dropLast)
      let file := pathJoin handlersPath (String.intercalate "/" pathnames ++ ".js")
      if dir ∈ acc.2 then (acc.1 ++ [FsEvent.warn dir], acc.2, file)
      else (acc.1 ++ [FsEvent.mkdir dir], acc.2 ++ [dir], file)
    else
      (acc.1, acc.2, pathJoin handlersPath (pathnames.getLastD "" ++ ".js"))
  let evs := state1.1
  let fs := state1.2.1
  let file := state1.2.2
  if file ∈ fs then (evs ++ [FsEvent.warn file], fs)
  else (evs ++ [FsEvent.write file], fs ++ [file])

/-- Embeds `createHandlers(apis, handlersPath)` on an initial file
system: group the API entries by normalized pathname, then run the write
loop over the grouped records in key order. -/
def createHandlers (handlersPath : String) (apis : List ApiPath)
    (fs0 : List String) : List FsEvent × List String :=
  (groupRoutes apis).foldl
    (fun acc pr => createHandlersStep handlersPath acc pr.2) ([], fs0)

/-- Embeds `createModels(models, modelsPath)` on an initial file system:
for each model name in order, write `modelsPath/<name lower-cased>.js`
if it does not exist, warn otherwise. -/
def createModels (modelsPath : String) (models : List String)
    (fs0 : List String) : List FsEvent × List String :=
  models.foldl
    (fun acc modelName =>
      let fileName := pathJoin modelsPath (strToLower modelName ++ ".js")
      if fileName ∈ acc.2 then (acc.1 ++ [FsEvent.warn fileName], acc.2)
      else (acc.1 ++ [FsEvent.write fileName], acc.2 ++ [fileName]))
    ([], fs0)

/-- Replay of a scaffolding run over an initial file system: `true` when
no `mkdir`/`write` ever targets a path that already exists at that point
(i.e. nothing is overwritten). -/
def replayOk (fs : List String) : List FsEvent → Bool
  | [] => true
  | .warn _ :: es => replayOk fs es
  | .mkdir p :: es => p ∉ fs && replayOk (fs ++ [p]) es
  | .write p :: es => p ∉ fs && replayOk (fs ++ [p]) es

/-- The file system after a list of scaffolding events. -/
def applyEvs (fs : List String) : List FsEvent → List String
  | [] => fs
  | .warn _ :: es => applyEvs fs es
  | .mkdir p :: es => applyEvs (fs ++ [p]) es
  | .write p :: es => applyEvs (fs ++ [p]) es

/-- The handler file `createHandlers` associates with a grouped
pathname: `handlersPath/<pathname>.js` (the pathname re-joined from its
`/`-split segments, which reproduces it verbatim). -/
def fileFor (handlersPath pn : String) : String :=
  pathJoin handlersPath
    (String.intercalate "/" ((splitSep '/' [] pn.data).map String.mk) ++ ".js")

/-- Paths written (not warned about or created as directories) during a
scaffolding run. -/
def writtenPaths (evs : List FsEvent) : List String :=
  evs.filterMap (fun e => match e with | .write p => some p | _ => none)

/-! ## Auxiliary lemmas -/

theorem asyncSome_of_ok {ε : Type} :
    ∀ (l : List (SchemeResult ε)) (errs : List (CollectedErr ε)),
      SchemeResult.ok ∈ l → (asyncSome l errs).1 = true := by
  intro l
  induction l with
  | nil => intro errs h; simp at h
  | cons s rest ih =>
    intro errs h
    cases s with
    | ok => simp [asyncSome]
    | noCallback =>
      have : SchemeResult.ok ∈ rest := by
        rcases List.mem_cons.mp h with h1 | h1
        · exact absurd h1 (by simp)
        · exact h1
      simpa [asyncSome] using ih _ this
    | fail e =>
      have : SchemeResult.ok ∈ rest := by
        rcases List.mem_cons.mp h with h1 | h1
        · exact absurd h1 (by simp)
        · exact h1
      simpa [asyncSome] using ih _ this

theorem asyncSome_of_allFail {ε : Type} :
    ∀ (l : List (SchemeResult ε)) (errs : List (CollectedErr ε)),
      (∀ s ∈ l, s ≠ SchemeResult.ok) →
      asyncSome l errs = (false, errs ++ l.map collectOf) := by
  intro l
  induction l with
  | nil => intro errs _; simp [asyncSome]
  | cons s rest ih =>
    intro errs h
    have hs : s ≠ SchemeResult.ok := h s (by simp)
    have hrest : ∀ x ∈ rest, x ≠ SchemeResult.ok := fun x hx => h x (by simp [hx])
    cases s with
    | ok => exact absurd rfl hs
    | noCallback => simp [asyncSome, ih _ hrest, collectOf]
    | fail e => simp [asyncSome, ih _ hrest, collectOf]

/-- In the newer content-type middleware, a request some of whose
comma-separated header values contains some declared media type as a
substring is never rejected. -/
theorem v2_content_type_none_of_match (errName : Option String)
    (cm : List (String × List String)) (reqMethod : String)
    (hdr : Option String) (c : Nat)
    (hex : ∃ part ∈ hdrSplit hdr, ∃ mt ∈ (jsGet cm (strToLower reqMethod)).getD [],
      jsIncludes part mt = true) :
    V2.validateContentTypeHeaderMiddleware errName cm reqMethod hdr c = none := by
  have hval : (hdrSplit hdr).any
      (fun h => ((jsGet cm (strToLower reqMethod)).getD []).any
        (fun mt => jsIncludes h mt)) = true := by
    rw [List.any_eq_true]
    obtain ⟨part, hpart, mt, hmt, hinc⟩ := hex
    exact ⟨part, hpart, by rw [List.any_eq_true]; exact ⟨mt, hmt, hinc⟩⟩
  simp only [V2.validateContentTypeHeaderMiddleware]
  by_cases hstar : "*/*" ∉ hdrSplit hdr
  · rw [if_pos hstar]
    by_cases hmut : strToLower reqMethod = "patch" ∨ strToLower reqMethod = "post" ∨
        strToLower reqMethod = "put"
    · rw [if_pos hmut, if_neg (by simp [hval])]
    · rw [if_neg hmut]
  · rw [if_neg hstar]

/-- In the newer accept middleware, a request some of whose
comma-separated header values contains some declared media type as a
substring is never rejected. -/
theorem v2_accept_none_of_match (errName : Option String)
    (pm cm : List (String × List String)) (reqMethod : String)
    (hdr : Option String)
    (hex : ∃ part ∈ hdrSplit hdr,
      ∃ mt ∈ (match jsGet pm (strToLower reqMethod) with
              | some l => l
              | none => (jsGet cm (strToLower reqMethod)).getD []),
      jsIncludes part mt = true) :
    V2.validateAcceptHeaderMiddleware errName pm cm reqMethod hdr = none := by
  have hval : (hdrSplit hdr).any
      (fun h => (match jsGet pm (strToLower reqMethod) with
                 | some l => l
                 | none => (jsGet cm (strToLower reqMethod)).getD []).any
        (fun mt => jsIncludes h mt)) = true := by
    rw [List.any_eq_true]
    obtain ⟨part, hpart, mt, hmt, hinc⟩ := hex
    exact ⟨part, hpart, by rw [List.any_eq_true]; exact ⟨mt, hmt, hinc⟩⟩
  simp only [V2.validateAcceptHeaderMiddleware]
  by_cases hstar : "*/*" ∉ hdrSplit hdr
  · rw [if_pos hstar, if_neg (by simp [hval])]
  · rw [if_neg hstar]

/-! ### Association-list lemmas for the registration tables -/
theorem jsUpdate_keys {α : Type} (l : List (String × α)) (k : String) (d : α) (f : α → α) :
    (jsUpdate l k d f).map Prod.fst =
      if k ∈ l.map Prod.fst then l.map Prod.fst else l.map Prod.fst ++ [k] := by
  induction l with
  | nil => simp [jsUpdate]
  | cons kv rest ih =>
    obtain ⟨k', v⟩ := kv
    by_cases h : k' = k
    · subst h
      simp [jsUpdate]
    · simp only [jsUpdate, if_neg h, List.map_cons]
      rw [ih]
      by_cases hmem : k ∈ rest.map Prod.fst
      · simp [hmem, Ne.symm h]
      · simp [hmem, Ne.symm h]

theorem jsUpdate_keys_mem {α : Type} (l : List (String × α)) (k p : String) (d : α)
    (f : α → α) :
    (p ∈ (jsUpdate l k d f).map Prod.fst) ↔ (p ∈ l.map Prod.fst ∨ p = k) := by
  rw [jsUpdate_keys]
  by_cases h : k ∈ l.map Prod.fst
  · rw [if_pos h]
    constructor
    · exact Or.inl
    · rintro (hp | rfl)
      · exact hp
      · exact h
  · rw [if_neg h]
    simp

theorem jsUpdate_keys_nodup {α : Type} (l : List (String × α)) (k : String) (d : α)
    (f : α → α) (h : (l.map Prod.fst).Nodup) :
    ((jsUpdate l k d f).map Prod.fst).Nodup := by
  rw [jsUpdate_keys]
  by_cases hmem : k ∈ l.map Prod.fst
  · rwa [if_pos hmem]
  · rw [if_neg hmem]
    simp [List.nodup_append, h, hmem]

theorem jsGet_jsUpdate {α : Type} (l : List (String × α)) (k k' : String) (d : α)
    (f : α → α) :
    jsGet (jsUpdate l k d f) k' =
      if k' = k then some (f ((jsGet l k).getD d)) else jsGet l k' := by
  induction l with
  | nil =>
    by_cases h : k' = k
    · subst h
      simp [jsUpdate, jsGet]
    · have h2 : ¬ k = k' := fun hh => h hh.symm
      simp [jsUpdate, jsGet, h, h2]
  | cons kv rest ih =>
    obtain ⟨k0, v⟩ := kv
    by_cases h0 : k0 = k
    · subst h0
      by_cases h1 : k' = k0
      · subst h1
        simp [jsUpdate, jsGet]
      · have h2 : ¬ k0 = k' := fun hh => h1 hh.symm
        simp [jsUpdate, jsGet, h1, h2]
    · by_cases h1 : k0 = k'
      · subst h1
        have h2 : ¬ k0 = k := h0
        simp [jsUpdate, jsGet, h0, h2]
      · simp [jsUpdate, jsGet, h0, h1, ih]

/-- Keys of a fold of `jsUpdate` steps: a path is present exactly when
it was present initially or is the key of some folded element. -/
theorem foldl_jsUpdate_keys_mem {α β : Type} (keyOf : β → String) (dOf : β → α)
    (fOf : β → α → α) :
    ∀ (xs : List β) (acc : List (String × α)) (p : String),
      (p ∈ (xs.foldl (fun acc x => jsUpdate acc (keyOf x) (dOf x) (fOf x)) acc).map
        Prod.fst) ↔ (p ∈ acc.map Prod.fst ∨ p ∈ xs.map keyOf) := by
  intro xs
  induction xs with
  | nil => simp
  | cons x rest ih =>
    intro acc p
    simp only [List.foldl_cons, List.map_cons, List.mem_cons]
    rw [ih, jsUpdate_keys_mem]
    tauto

/-- A fold of `jsUpdate` steps preserves key distinctness. -/
theorem foldl_jsUpdate_keys_nodup {α β : Type} (keyOf : β → String) (dOf : β → α)
    (fOf : β → α → α) :
    ∀ (xs : List β) (acc : List (String × α)), (acc.map Prod.fst).Nodup →
      ((xs.foldl (fun acc x => jsUpdate acc (keyOf x) (dOf x) (fOf x)) acc).map
        Prod.fst).Nodup := by
  intro xs
  induction xs with
  | nil => intro acc h; exact h
  | cons x rest ih =>
    intro acc h
    exact ih _ (jsUpdate_keys_nodup _ _ _ _ h)

/-- A fold of `jsUpdate` steps preserves a predicate on stored values,
provided each step's update function establishes it both from the
default and from any stored value. -/
theorem foldl_jsUpdate_values {α β : Type} (P : α → Prop) (keyOf : β → String)
    (dOf : β → α) (fOf : β → α → α)
    (hd : ∀ x, P (fOf x (dOf x))) (hf : ∀ x v, P v → P (fOf x v)) :
    ∀ (xs : List β) (acc : List (String × α)),
      (∀ k v, jsGet acc k = some v → P v) →
      ∀ k v, jsGet (xs.foldl (fun acc x => jsUpdate acc (keyOf x) (dOf x) (fOf x)) acc) k
        = some v → P v := by
  intro xs
  induction xs with
  | nil => intro acc h; exact h
  | cons x rest ih =>
    intro acc h
    refine ih _ ?_
    intro k v hget
    rw [jsGet_jsUpdate] at hget
    by_cases hk : k = keyOf x
    · rw [if_pos hk] at hget
      cases hget
      rcases hv : jsGet acc (keyOf x) with _ | w
      · simpa using hd x
      · simpa using hf x w (h _ _ hv)
    · rw [if_neg hk] at hget
      exact h _ _ hget

theorem jsDedup_nodup (l : List String) : (jsDedup l).Nodup := by
  unfold jsDedup
  have henum : l.enum.Nodup := by
    refine List.Nodup.of_map Prod.fst ?_
    rw [List.enum_map_fst]
    exact List.nodup_range _
  refine List.Nodup.map_on ?_ (List.Nodup.filter _ henum)
  intro x hx y hy hxy
  have hx' := of_decide_eq_true (List.mem_filter.mp hx).2
  have hy' := of_decide_eq_true (List.mem_filter.mp hy).2
  have : x.1 = y.1 := by rw [← hx', ← hy', hxy]
  exact Prod.ext this hxy

/-! ### Lemmas for the scaffolding claim -/
/-- Entries produced by `jsUpdate` satisfy a property preserved by the
update function and established on the default. -/
theorem jsUpdate_forall {α : Type} (P : String × α → Prop) :
    ∀ (l : List (String × α)) (k : String) (d : α) (f : α → α),
      P (k, f d) → (∀ v, P (k, v) → P (k, f v)) → (∀ e ∈ l, P e) →
      ∀ e ∈ jsUpdate l k d f, P e := by
  intro l
  induction l with
  | nil =>
    intro k d f hd _ _ e he
    simp only [jsUpdate, List.mem_singleton] at he
    subst he
    exact hd
  | cons kv rest ih =>
    intro k d f hd hf hl e he
    obtain ⟨k0, v⟩ := kv
    by_cases h0 : k0 = k
    · subst h0
      rw [jsUpdate, if_pos rfl] at he
      rcases List.mem_cons.mp he with rfl | hrest
      · exact hf v (hl _ (by simp))
      · exact hl _ (by simp [hrest])
    · rw [jsUpdate, if_neg h0] at he
      rcases List.mem_cons.mp he with rfl | hrest
      · exact hl _ (by simp)
      · exact ih k d f hd hf (fun e' he' => hl _ (by simp [he'])) e hrest

/-- Entries of a fold of `jsUpdate` steps satisfy a property preserved
by every step. -/
theorem foldl_jsUpdate_forall {α β : Type} (P : String × α → Prop) (keyOf : β → String)
    (dOf : β → α) (fOf : β → α → α)
    (hd : ∀ x, P (keyOf x, fOf x (dOf x))) (hf : ∀ x v, P (keyOf x, v) → P (keyOf x, fOf x v)) :
    ∀ (xs : List β) (acc : List (String × α)), (∀ e ∈ acc, P e) →
      ∀ e ∈ xs.foldl (fun acc x => jsUpdate acc (keyOf x) (dOf x) (fOf x)) acc, P e := by
  intro xs
  induction xs with
  | nil => intro acc h; exact h
  | cons x rest ih =>
    intro acc h
    exact ih _ (jsUpdate_forall P acc (keyOf x) (dOf x) (fOf x) (hd x) (hf x) h)

/-- The methods accumulated by the grouping loop of `createHandlers`:
relative to a starting table, each pathname's record ends up holding its
previous methods followed by the methods of every API entry whose path
normalizes to that pathname, in order. -/
theorem groupRoutes_go_methods :
    ∀ (apis : List ApiPath) (acc : List (String × HandlerRoute)) (p : String),
      (jsGet (apis.foldl
        (fun acc api =>
          jsUpdate acc (pathnameOf api.path)
            { path := api.path, pathname := pathnameOf api.path, methods := [] }
            (fun r => { r with methods := r.methods ++ methodsOf api })) acc) p).map
        HandlerRoute.methods =
      (match jsGet acc p with
       | some r => some (r.methods ++
           ((apis.filter (fun a => pathnameOf a.path = p)).flatMap methodsOf))
       | none =>
         if p ∈ apis.map (fun a => pathnameOf a.path)
         then some ((apis.filter (fun a => pathnameOf a.path = p)).flatMap methodsOf)
         else none) := by
  intro apis
  induction apis with
  | nil =>
    intro acc p
    rcases h : jsGet acc p with _ | r
    · simp [h]
    · simp [h]
  | cons a as ih =>
    intro acc p
    rw [List.foldl_cons, ih]
    rw [jsGet_jsUpdate]
    by_cases hp : p = pathnameOf a.path
    · rw [if_pos hp]
      have hfilter : (a :: as).filter (fun a' => pathnameOf a'.path = p) =
          a :: as.filter (fun a' => pathnameOf a'.path = p) := by
        rw [List.filter_cons_of_pos]
        simp [hp]
      have hmem : p ∈ (a :: as).map (fun a' => pathnameOf a'.path) := by
        simp [hp]
      rcases h : jsGet acc p with _ | r
    -- the binding is fresh: the default record (with the entry's own
    -- methods appended) collects the remaining matching entries
      · rw [hp] at h
        rw [h]
        simp only [Option.getD_none, Option.map_some]
        rw [hfilter]
        rw [if_pos hmem]
        simp
      · rw [hp] at h
        rw [h]
        simp only [Option.getD_some, Option.map_some]
        rw [hfilter]
        simp [List.append_assoc]
    · rw [if_neg hp]
      have hfilter : (a :: as).filter (fun a' => pathnameOf a'.path = p) =
          as.filter (fun a' => pathnameOf a'.path = p) := by
        rw [List.filter_cons_of_neg]
        simp
        exact fun hh => hp hh.symm
      have hmem : (p ∈ (a :: as).map (fun a' => pathnameOf a'.path)) ↔
          (p ∈ as.map (fun a' => pathnameOf a'.path)) := by
        simp only [List.map_cons, List.mem_cons]
        constructor
        · rintro (h1 | h1)
          · exact absurd h1 hp
          · exact h1
        · exact Or.inr
      rcases h : jsGet acc p with _ | r
      · rw [hfilter]
        by_cases h2 : p ∈ as.map (fun a' => pathnameOf a'.path)
        · rw [if_pos h2, if_pos (hmem.mpr h2)]
        · rw [if_neg h2, if_neg (fun hh => h2 (hmem.mp hh))]
      · rw [hfilter]

theorem splitSepFuel_ne_nil (s0 : Char) (srest : List Char) :
    ∀ (n : Nat) (l : List Char), splitSepFuel s0 srest n l ≠ [] := by
  intro n l
  cases l with
  | nil => simp [splitSepFuel]
  | cons c cs =>
    cases n with
    | zero => simp [splitSepFuel]
    | succ n =>
      simp only [splitSepFuel]
      rcases h : stripLead (s0 :: srest) (c :: cs) with _ | rest
      · rcases h2 : splitSepFuel s0 srest n cs with _ | ⟨g, gs⟩ <;> simp
      · simp

theorem applyEvs_append (fs : List String) (e1 e2 : List FsEvent) :
    applyEvs fs (e1 ++ e2) = applyEvs (applyEvs fs e1) e2 := by
  induction e1 generalizing fs with
  | nil => rfl
  | cons e rest ih =>
    cases e with
    | warn p => simpa [applyEvs] using ih fs
    | mkdir p => simpa [applyEvs] using ih (fs ++ [p])
    | write p => simpa [applyEvs] using ih (fs ++ [p])

theorem replayOk_append (fs : List String) (e1 e2 : List FsEvent) :
    replayOk fs (e1 ++ e2) = (replayOk fs e1 && replayOk (applyEvs fs e1) e2) := by
  induction e1 generalizing fs with
  | nil => simp [replayOk, applyEvs]
  | cons e rest ih =>
    cases e with
    | warn p => simpa [replayOk, applyEvs] using ih fs
    | mkdir p =>
      simp only [List.cons_append, replayOk, applyEvs, List.append_eq]
      rw [ih (fs ++ [p]), Bool.and_assoc]
    | write p =>
      simp only [List.cons_append, replayOk, applyEvs, List.append_eq]
      rw [ih (fs ++ [p]), Bool.and_assoc]

/-- A run that never overwrites writes only paths that did not exist
initially, and writes no path twice. -/
theorem replayOk_written (fs : List String) :
    ∀ evs, replayOk fs evs = true →
      (∀ q ∈ writtenPaths evs, q ∉ fs) ∧ (writtenPaths evs).Nodup := by
  intro evs
  induction evs generalizing fs with
  | nil => intro _; simp [writtenPaths]
  | cons e rest ih =>
    intro h
    cases e with
    | warn p =>
      simp only [replayOk] at h
      simpa [writtenPaths] using ih fs h
    | mkdir p =>
      simp only [replayOk, Bool.and_eq_true] at h
      have := ih (fs ++ [p]) h.2
      refine ⟨?_, by simpa [writtenPaths] using this.2⟩
      intro q hq hqfs
      exact this.1 q (by simpa [writtenPaths] using hq) (by simp [hqfs])
    | write p =>
      simp only [replayOk, Bool.and_eq_true] at h
      have hnot : p ∉ fs := by
        have := h.1
        simpa using this
      have hrest := ih (fs ++ [p]) h.2
      constructor
      · intro q hq
        simp only [writtenPaths, List.filterMap_cons] at hq
        simp only [List.mem_cons] at hq
        rcases hq with rfl | hq
        · exact hnot
        · intro hqfs
          exact hrest.1 q hq (by simp [hqfs])
      · simp only [writtenPaths, List.filterMap_cons]
        refine List.Nodup.cons ?_ hrest.2
        intro hmem
        exact hrest.1 p hmem (by simp)

theorem createHandlersStep_decomp (hp : String) (evs : List FsEvent) (fs : List String)
    (r : HandlerRoute) :
    ∃ es, createHandlersStep hp (evs, fs) r = (evs ++ es, applyEvs fs es) ∧
      replayOk fs es = true ∧
      (FsEvent.write (fileFor hp r.pathname) ∈ es ∨
        FsEvent.warn (fileFor hp r.pathname) ∈ es) ∧
      (∀ q, FsEvent.write q ∈ es → q = fileFor hp r.pathname) := by
  have hne : ((splitSep '/' [] r.pathname.data).map String.mk) ≠ [] := by
    intro h
    exact splitSepFuel_ne_nil '/' [] _ _ (by simpa using h)
  by_cases hlen : ((splitSep '/' [] r.pathname.data).map String.mk).length > 1
  · by_cases hdir : pathJoin hp (String.intercalate "/"
        ((splitSep '/' [] r.pathname.data).map String.mk).dropLast) ∈ fs
    · by_cases hfile : pathJoin hp (String.intercalate "/"
          ((splitSep '/' [] r.pathname.data).map String.mk) ++ ".js") ∈ fs
      · refine ⟨[FsEvent.warn (pathJoin hp (String.intercalate "/"
          ((splitSep '/' [] r.pathname.data).map String.mk).dropLast)),
          FsEvent.warn (fileFor hp r.pathname)], ?_, by simp [replayOk],
          Or.inr (by simp), by intro q hq; simp at hq⟩
        simp only [createHandlersStep]
        rw [if_pos hlen]
        try dsimp only
        rw [if_pos hdir]
        try dsimp only
        rw [if_pos hfile]
        simp [applyEvs, fileFor]
      · refine ⟨[FsEvent.warn (pathJoin hp (String.intercalate "/"
          ((splitSep '/' [] r.pathname.data).map String.mk).dropLast)),
          FsEvent.write (fileFor hp r.pathname)], ?_, ?_,
          Or.inl (by simp), ?_⟩
        · simp only [createHandlersStep]
          rw [if_pos hlen]
          try dsimp only
          rw [if_pos hdir]
          try dsimp only
          rw [if_neg hfile]
          simp [applyEvs, fileFor]
        · simp only [replayOk, fileFor]
          simp [hfile]
        · intro q hq
          simp at hq
          exact hq
    · by_cases hfile : pathJoin hp (String.intercalate "/"
          ((splitSep '/' [] r.pathname.data).map String.mk) ++ ".js") ∈
          fs ++ [pathJoin hp (String.intercalate "/"
            ((splitSep '/' [] r.pathname.data).map String.mk).dropLast)]
      · refine ⟨[FsEvent.mkdir (pathJoin hp (String.intercalate "/"
          ((splitSep '/' [] r.pathname.data).map String.mk).dropLast)),
          FsEvent.warn (fileFor hp r.pathname)], ?_, ?_,
          Or.inr (by simp), by intro q hq; simp at hq⟩
        · simp only [createHandlersStep]
          rw [if_pos hlen]
          try dsimp only
          rw [if_neg hdir]
          try dsimp only
          rw [if_pos hfile]
          simp [applyEvs, fileFor]
        · simp only [replayOk]
          simp [hdir]
      · refine ⟨[FsEvent.mkdir (pathJoin hp (String.intercalate "/"
          ((splitSep '/' [] r.pathname.data).map String.mk).dropLast)),
          FsEvent.write (fileFor hp r.pathname)], ?_, ?_,
          Or.inl (by simp), ?_⟩
        · simp only [createHandlersStep]
          rw [if_pos hlen]
          try dsimp only
          rw [if_neg hdir]
          try dsimp only
          rw [if_neg hfile]
          simp [applyEvs, fileFor]
        · simp only [replayOk, fileFor]
          simp [hdir, hfile]
        · intro q hq
          simp at hq
          exact hq
  · have hone : ∃ a, ((splitSep '/' [] r.pathname.data).map String.mk) = [a] := by
      rcases h : (splitSep '/' [] r.pathname.data).map String.mk with _ | ⟨a, rest⟩
      · exact absurd h hne
      · rcases rest with _ | ⟨b, rest'⟩
        · exact ⟨a, rfl⟩
        · rw [h] at hlen
          simp at hlen
    obtain ⟨a, ha⟩ := hone
    have hfe : pathJoin hp
        ((((splitSep '/' [] r.pathname.data).map String.mk).getLastD "") ++ ".js") =
        fileFor hp r.pathname := by
      rw [fileFor, ha]
      simp [String.intercalate, String.intercalate.go]
    by_cases hfile : fileFor hp r.pathname ∈ fs
    · refine ⟨[FsEvent.warn (fileFor hp r.pathname)], ?_, by simp [replayOk],
        Or.inr (by simp), by intro q hq; simp at hq⟩
      simp only [createHandlersStep]
      rw [if_neg hlen]
      dsimp only
      rw [hfe, if_pos hfile]
      simp [applyEvs]
    · refine ⟨[FsEvent.write (fileFor hp r.pathname)], ?_, by simp [replayOk, hfile],
        Or.inl (by simp), ?_⟩
      · simp only [createHandlersStep]
        rw [if_neg hlen]
        try dsimp only
        rw [hfe, if_neg hfile]
        simp [applyEvs]
      · intro q hq
        simp at hq
        exact hq

theorem createHandlers_go (hp : String) (fs0 : List String) :
    ∀ (grouped : List (String × HandlerRoute)) (evs : List FsEvent) (fs : List String),
      replayOk fs0 evs = true → applyEvs fs0 evs = fs →
      replayOk fs0
        ((grouped.foldl (fun acc pr => createHandlersStep hp acc pr.2) (evs, fs)).1) = true ∧
      applyEvs fs0
        ((grouped.foldl (fun acc pr => createHandlersStep hp acc pr.2) (evs, fs)).1) =
        (grouped.foldl (fun acc pr => createHandlersStep hp acc pr.2) (evs, fs)).2 ∧
      (∃ tail, (grouped.foldl (fun acc pr => createHandlersStep hp acc pr.2) (evs, fs)).1 =
        evs ++ tail) ∧
      (∀ pr ∈ grouped,
        FsEvent.write (fileFor hp pr.2.pathname) ∈
          (grouped.foldl (fun acc pr => createHandlersStep hp acc pr.2) (evs, fs)).1 ∨
        FsEvent.warn (fileFor hp pr.2.pathname) ∈
          (grouped.foldl (fun acc pr => createHandlersStep hp acc pr.2) (evs, fs)).1) ∧
      (∀ q, FsEvent.write q ∈
          (grouped.foldl (fun acc pr => createHandlersStep hp acc pr.2) (evs, fs)).1 →
        FsEvent.write q ∈ evs ∨ ∃ pr ∈ grouped, q = fileFor hp pr.2.pathname) := by
  intro grouped
  induction grouped with
  | nil =>
    intro evs fs hrep happ
    exact ⟨hrep, happ, ⟨[], by simp⟩, by simp, fun q hq => Or.inl hq⟩
  | cons pr rest ih =>
    intro evs fs hrep happ
    obtain ⟨es, heq, hrepes, hfileev, hwrites⟩ := createHandlersStep_decomp hp evs fs pr.2
    have hfold : (pr :: rest).foldl (fun acc pr => createHandlersStep hp acc pr.2) (evs, fs) =
        rest.foldl (fun acc pr => createHandlersStep hp acc pr.2)
          (evs ++ es, applyEvs fs es) := by
      rw [List.foldl_cons, heq]
    have hrep' : replayOk fs0 (evs ++ es) = true := by
      rw [replayOk_append, happ]
      simp [hrep, hrepes]
    have happ' : applyEvs fs0 (evs ++ es) = applyEvs fs es := by
      rw [applyEvs_append, happ]
    obtain ⟨ihrep, ihapp, ⟨tail, htail⟩, ihfiles, ihwr⟩ := ih (evs ++ es) (applyEvs fs es)
      hrep' happ'
    rw [hfold]
    refine ⟨ihrep, ihapp, ⟨es ++ tail, by rw [htail, List.append_assoc]⟩, ?_, ?_⟩
    · intro pr' hpr'
      rcases List.mem_cons.mp hpr' with rfl | hpr'
      · rcases hfileev with hev | hev
        · exact Or.inl (by rw [htail]; exact List.mem_append_left _ (List.mem_append_right _ hev))
        · exact Or.inr (by rw [htail]; exact List.mem_append_left _ (List.mem_append_right _ hev))
      · exact ihfiles pr' hpr'
    · intro q hq
      rcases ihwr q hq with hev | ⟨pr', hpr', hq'⟩
      · rcases List.mem_append.mp hev with hev1 | hev2
        · exact Or.inl hev1
        · exact Or.inr ⟨pr, List.mem_cons_self _ _, hwrites q hev2⟩
      · exact Or.inr ⟨pr', List.mem_cons_of_mem _ hpr', hq'⟩

theorem createModels_go (mp : String) (fs0 : List String) :
    ∀ (models : List String) (evs : List FsEvent) (fs : List String),
      replayOk fs0 evs = true → applyEvs fs0 evs = fs →
      replayOk fs0
        ((models.foldl
          (fun acc modelName =>
            let fileName := pathJoin mp (strToLower modelName ++ ".js")
            if fileName ∈ acc.2 then (acc.1 ++ [FsEvent.warn fileName], acc.2)
            else (acc.1 ++ [FsEvent.write fileName], acc.2 ++ [fileName])) (evs, fs)).1) =
        true ∧
      applyEvs fs0
        ((models.foldl
          (fun acc modelName =>
            let fileName := pathJoin mp (strToLower modelName ++ ".js")
            if fileName ∈ acc.2 then (acc.1 ++ [FsEvent.warn fileName], acc.2)
            else (acc.1 ++ [FsEvent.write fileName], acc.2 ++ [fileName])) (evs, fs)).1) =
        (models.foldl
          (fun acc modelName =>
            let fileName := pathJoin mp (strToLower modelName ++ ".js")
            if fileName ∈ acc.2 then (acc.1 ++ [FsEvent.warn fileName], acc.2)
            else (acc.1 ++ [FsEvent.write fileName], acc.2 ++ [fileName])) (evs, fs)).2 := by
  intro models
  induction models with
  | nil => intro evs fs hrep happ; exact ⟨hrep, happ⟩
  | cons m rest ih =>
    intro evs fs hrep happ
    rw [List.foldl_cons]
    dsimp only
    by_cases hm : pathJoin mp (strToLower m ++ ".js") ∈ fs
    · rw [if_pos hm]
      refine ih _ _ ?_ ?_
      · rw [replayOk_append, happ]
        simp [hrep, replayOk]
      · rw [applyEvs_append, happ]
        simp [applyEvs]
    · rw [if_neg hm]
      refine ih _ _ ?_ ?_
      · rw [replayOk_append, happ]
        simp [hrep, replayOk, hm]
      · rw [applyEvs_append, happ]
        simp [applyEvs]

/-! ## Claim theorems -/

/-- C1: for every request whose lower-cased method is not in the list of
methods registered for its resolved path, the not-allowed middleware (in
both pipeline variants, the newer one on its first traversal) responds
with status 405 and sets the `Allow` header to exactly the registered
methods, upper-cased and comma-separated; for a method in the list it
passes the request through without a 405. -/
theorem c1_not_allowed_405 (errName : Option String) (methods : List String)
    (reqMethod : String) :
    (strToLower reqMethod ∉ methods →
      (V1.buildNotAllowedMiddleware methods reqMethod).sent = some 405 ∧
      (V1.buildNotAllowedMiddleware methods reqMethod).allow
        = some (strToUpper (String.intercalate ", " methods)) ∧
      (V2.buildNotAllowedMiddleware errName methods reqMethod 0).sent = some 405 ∧
      (V2.buildNotAllowedMiddleware errName methods reqMethod 0).allow
        = some (strToUpper (String.intercalate ", " methods))) ∧
    (strToLower reqMethod ∈ methods →
      (V1.buildNotAllowedMiddleware methods reqMethod).sent = none ∧
      (V1.buildNotAllowedMiddleware methods reqMethod).allow = none ∧
      (V2.buildNotAllowedMiddleware errName methods reqMethod 0).sent = none ∧
      (V2.buildNotAllowedMiddleware errName methods reqMethod 0).nextErr = none) := by
  constructor
  · intro h
    simp [V1.buildNotAllowedMiddleware, V2.buildNotAllowedMiddleware, h]
  · intro h
    simp [V1.buildNotAllowedMiddleware, V2.buildNotAllowedMiddleware, h]

/-- Witness for C1 at a concrete input: `DELETE` against `[get, post]`
is refused with `Allow: GET, POST`; `GET` passes. -/
theorem c1_not_allowed_405_witness :
    (V1.buildNotAllowedMiddleware ["get", "post"] "DELETE").sent = some 405 ∧
    (V1.buildNotAllowedMiddleware ["get", "post"] "DELETE").allow = some "GET, POST" ∧
    (V2.buildNotAllowedMiddleware none ["get", "post"] "DELETE" 0).sent = some 405 ∧
    (V2.buildNotAllowedMiddleware none ["get", "post"] "GET" 0).sent = none := by
  have h1 := (c1_not_allowed_405 none ["get", "post"] "DELETE").1 (by decide)
  have h2 := (c1_not_allowed_405 none ["get", "post"] "GET").2 (by decide)
  exact ⟨h1.1, h1.2.1.trans (by decide), h1.2.2.1, h2.2.2.1⟩

/-- C2 counterexample: a POST whose Content-Type header
`application/xml, */*` is neither absent, empty nor `*/*` and matches no
entry of `consumes` (no comma-separated part contains
`application/json`) is nevertheless not failed with 415 by the newer
content-type middleware on its first traversal, because `*/*` appears
among the comma-separated parts. -/
theorem c2_counterexample :
    V2.validateContentTypeHeaderMiddleware none [("post", ["application/json"])] "POST"
      (some "application/xml, */*") 0 = none ∧
    ("application/xml, */*" : String) ≠ "" ∧
    ("application/xml, */*" : String) ≠ "*/*" ∧
    (∀ part ∈ hdrSplit (some "application/xml, */*"),
      ∀ mt ∈ (["application/json"] : List String), jsIncludes part mt = false) := by
  decide

/-- C2 amended: for every PUT/POST/PATCH request with a Content-Type
header that is neither absent, empty nor `*/*`, the older content-type
middleware rejects with 415 when the header equals no entry of
`consumes[method]`, and the newer one (on its first traversal) rejects
with a 415 error when additionally `*/*` is not among the header's
comma-separated parts and no part contains a `consumes[method]` entry as
a substring; for every other method neither middleware ever rejects. -/
theorem c2_content_type_415 (errName : Option String)
    (cm : List (String × List String)) (reqMethod hv : String) :
    ((strToLower reqMethod = "put" ∨ strToLower reqMethod = "post" ∨
        strToLower reqMethod = "patch") →
      (hv ≠ "" → hv ≠ "*/*" → hv ∉ (jsGet cm (strToLower reqMethod)).getD [] →
        (V1.validateContentTypeHeaderMiddleware cm reqMethod (some hv)).map Prod.fst
          = some 415) ∧
      (hv ≠ "" → "*/*" ∉ hdrSplit (some hv) →
        (∀ part ∈ hdrSplit (some hv), ∀ mt ∈ (jsGet cm (strToLower reqMethod)).getD [],
          jsIncludes part mt = false) →
        (V2.validateContentTypeHeaderMiddleware errName cm reqMethod (some hv) 0).map
          ErrObj.status = some 415)) ∧
    (¬(strToLower reqMethod = "put" ∨ strToLower reqMethod = "post" ∨
        strToLower reqMethod = "patch") →
      (∀ hdr, V1.validateContentTypeHeaderMiddleware cm reqMethod hdr = none) ∧
      (∀ hdr c, V2.validateContentTypeHeaderMiddleware errName cm reqMethod hdr c = none)) := by
  constructor
  · intro hmut
    have hmut' : strToLower reqMethod = "patch" ∨ strToLower reqMethod = "post" ∨
        strToLower reqMethod = "put" := by tauto
    constructor
    · intro h1 h2 h3
      simp [V1.validateContentTypeHeaderMiddleware, h1, h2, h3, hmut']
    · intro h1 hstar hnone
      have hval : (hdrSplit (some hv)).any
          (fun h => ((jsGet cm (strToLower reqMethod)).getD []).any
            (fun mt => jsIncludes h mt)) = false := by
        rw [List.any_eq_false]
        intro part hpart
        rw [Bool.not_eq_true, List.any_eq_false]
        intro mt hmt
        rw [Bool.not_eq_true]
        exact hnone part hpart mt hmt
      simp [V2.validateContentTypeHeaderMiddleware, hstar, hmut', hval, mkError]
  · intro hmut
    have hmut' : ¬(strToLower reqMethod = "patch" ∨ strToLower reqMethod = "post" ∨
        strToLower reqMethod = "put") := by tauto
    constructor
    · intro hdr
      cases hdr with
      | none => rfl
      | some hv' =>
        by_cases h : hv' ≠ "" ∧ hv' ≠ "*/*"
        · simp [V1.validateContentTypeHeaderMiddleware, h.1, h.2, hmut']
        · simp only [V1.validateContentTypeHeaderMiddleware]
          simp [if_neg h]
    · intro hdr c
      by_cases h : "*/*" ∉ hdrSplit hdr
      · simp [V2.validateContentTypeHeaderMiddleware, h, hmut']
      · simp only [V2.validateContentTypeHeaderMiddleware]
        simp [if_neg h]

/-- Witness for C2 amended at concrete inputs: a POST with header
`text/html` against consumes `[application/json]` is rejected by both
middlewares; a GET is never rejected. -/
theorem c2_content_type_415_witness :
    (V1.validateContentTypeHeaderMiddleware [("post", ["application/json"])] "POST"
      (some "text/html")).map Prod.fst = some 415 ∧
    (V2.validateContentTypeHeaderMiddleware none [("post", ["application/json"])] "POST"
      (some "text/html") 0).map ErrObj.status = some 415 ∧
    V1.validateContentTypeHeaderMiddleware [("post", ["application/json"])] "GET"
      (some "text/html") = none := by
  have h1 := (c2_content_type_415 none [("post", ["application/json"])] "POST" "text/html").1
    (by decide)
  have h2 := (c2_content_type_415 none [("post", ["application/json"])] "GET" "text/html").2
    (by decide)
  exact ⟨h1.1 (by decide) (by decide) (by decide),
         h1.2 (by decide) (by decide) (by decide),
         h2.1 (some "text/html")⟩

/-- C3 counterexample: in the older content-type middleware a header
that contains the declared media type as a proper substring does not
match — the request is rejected with 415 even though
`'application/json; charset=utf-8'.includes('application/json')` holds,
so matching in that middleware is exact equality, not substring
inclusion. -/
theorem c3_counterexample :
    (V1.validateContentTypeHeaderMiddleware [("post", ["application/json"])] "POST"
      (some "application/json; charset=utf-8")).map Prod.fst = some 415 ∧
    jsIncludes "application/json; charset=utf-8" "application/json" = true := by
  decide

/-- C3 amended: in the newer pipeline's content-negotiation middlewares
a header matches whenever any of its comma-separated values contains any
declared media type as a substring, and a matching request is never
rejected (the older pipeline's middlewares instead compare the whole
header for exact equality). -/
theorem c3_substring_match (errName : Option String)
    (cm pm : List (String × List String)) (reqMethod : String)
    (hdr : Option String) (c : Nat) :
    ((∃ part ∈ hdrSplit hdr, ∃ mt ∈ (jsGet cm (strToLower reqMethod)).getD [],
        jsIncludes part mt = true) →
      V2.validateContentTypeHeaderMiddleware errName cm reqMethod hdr c = none) ∧
    ((∃ part ∈ hdrSplit hdr,
        ∃ mt ∈ (match jsGet pm (strToLower reqMethod) with
                | some l => l
                | none => (jsGet cm (strToLower reqMethod)).getD []),
        jsIncludes part mt = true) →
      V2.validateAcceptHeaderMiddleware errName pm cm reqMethod hdr = none) :=
  ⟨fun hex => v2_content_type_none_of_match errName cm reqMethod hdr c hex,
   fun hex => v2_accept_none_of_match errName pm cm reqMethod hdr hex⟩

/-- Witness for C3 amended at concrete inputs: a charset-suffixed
Content-Type and a multi-valued Accept header both pass the newer
middlewares by substring matching. -/
theorem c3_substring_match_witness :
    V2.validateContentTypeHeaderMiddleware none [("post", ["application/json"])] "POST"
      (some "application/json; charset=utf-8") 0 = none ∧
    V2.validateAcceptHeaderMiddleware none [("get", ["application/json"])] [] "GET"
      (some "text/html, application/json") = none := by
  have h1 := (c3_substring_match none [("post", ["application/json"])] [] "POST"
    (some "application/json; charset=utf-8") 0).1
  have h2 := (c3_substring_match none [] [("get", ["application/json"])] "GET"
    (some "text/html, application/json") 0).2
  exact ⟨h1 (by decide), h2 (by decide)⟩

/-- C4 counterexample: a GET whose Accept header `*/*, text/plain` is
neither absent nor `*/*` and matches no entry of `produces` is
nevertheless not failed with 406 by the newer accept middleware, because
`*/*` appears among its comma-separated parts. -/
theorem c4_counterexample :
    V2.validateAcceptHeaderMiddleware none [("get", ["application/json"])] [] "GET"
      (some "*/*, text/plain") = none ∧
    ("*/*, text/plain" : String) ≠ "" ∧
    ("*/*, text/plain" : String) ≠ "*/*" ∧
    (∀ part ∈ hdrSplit (some "*/*, text/plain"),
      ∀ mt ∈ (["application/json"] : List String), jsIncludes part mt = false) := by
  decide

/-- C4 amended: for every request with an Accept header that is neither
absent nor `*/*` — and, for the newer middleware, none of whose
comma-separated values is `*/*` — the accept middleware fails the
request with 406 when the header matches no entry of
`produces[method]` (with `consumes[method]` used instead when
`produces[method]` is missing) under that middleware's matching relation
(exact whole-header equality in the older pipeline, substring inclusion
per comma-separated part in the newer), and passes it through
otherwise. -/
theorem c4_accept_406 (errName : Option String)
    (pm cm : List (String × List String)) (reqMethod hv : String) :
    (hv ≠ "" → hv ≠ "*/*" →
      (hv ∉ (match jsGet pm (strToLower reqMethod) with
             | some l => l
             | none => (jsGet cm (strToLower reqMethod)).getD []) →
        (V1.validateAcceptHeaderMiddleware pm cm reqMethod (some hv)).map Prod.fst
          = some 406) ∧
      (hv ∈ (match jsGet pm (strToLower reqMethod) with
             | some l => l
             | none => (jsGet cm (strToLower reqMethod)).getD []) →
        V1.validateAcceptHeaderMiddleware pm cm reqMethod (some hv) = none)) ∧
    (hv ≠ "" → "*/*" ∉ hdrSplit (some hv) →
      ((∀ part ∈ hdrSplit (some hv),
          ∀ mt ∈ (match jsGet pm (strToLower reqMethod) with
                  | some l => l
                  | none => (jsGet cm (strToLower reqMethod)).getD []),
          jsIncludes part mt = false) →
        (V2.validateAcceptHeaderMiddleware errName pm cm reqMethod (some hv)).map
          ErrObj.status = some 406) ∧
      ((∃ part ∈ hdrSplit (some hv),
          ∃ mt ∈ (match jsGet pm (strToLower reqMethod) with
                  | some l => l
                  | none => (jsGet cm (strToLower reqMethod)).getD []),
          jsIncludes part mt = true) →
        V2.validateAcceptHeaderMiddleware errName pm cm reqMethod (some hv) = none)) := by
  constructor
  · intro h1 h2
    constructor
    · intro h3
      simp only [V1.validateAcceptHeaderMiddleware]
      rw [if_pos ⟨h1, h2⟩, if_neg h3]
      rfl
    · intro h3
      simp only [V1.validateAcceptHeaderMiddleware]
      rw [if_pos ⟨h1, h2⟩, if_pos h3]
  · intro h1 hstar
    constructor
    · intro hnone
      have hval : (hdrSplit (some hv)).any
          (fun h => (match jsGet pm (strToLower reqMethod) with
                     | some l => l
                     | none => (jsGet cm (strToLower reqMethod)).getD []).any
            (fun mt => jsIncludes h mt)) = false := by
        rw [List.any_eq_false]
        intro part hpart
        rw [Bool.not_eq_true, List.any_eq_false]
        intro mt hmt
        rw [Bool.not_eq_true]
        exact hnone part hpart mt hmt
      simp only [V2.validateAcceptHeaderMiddleware]
      rw [if_pos hstar, if_pos hval]
      rfl
    · intro hex
      exact v2_accept_none_of_match errName pm cm reqMethod (some hv) hex

/-- Witness for C4 amended at concrete inputs: Accept `text/html`
against produces `[application/json]` yields 406 in both pipelines;
an exactly matching Accept passes the older pipeline, and the
`produces`-to-`consumes` fallback applies when `produces[method]` is
missing. -/
theorem c4_accept_406_witness :
    (V1.validateAcceptHeaderMiddleware [("get", ["application/json"])] [] "GET"
      (some "text/html")).map Prod.fst = some 406 ∧
    (V2.validateAcceptHeaderMiddleware none [("get", ["application/json"])] [] "GET"
      (some "text/html")).map ErrObj.status = some 406 ∧
    V1.validateAcceptHeaderMiddleware [("get", ["application/json"])] [] "GET"
      (some "application/json") = none ∧
    (V1.validateAcceptHeaderMiddleware [] [("get", ["application/xml"])] "GET"
      (some "application/xml")) = none := by
  have h1 := (c4_accept_406 none [("get", ["application/json"])] [] "GET" "text/html").1
    (by decide) (by decide)
  have h2 := (c4_accept_406 none [("get", ["application/json"])] [] "GET" "text/html").2
    (by decide) (by decide)
  have h3 := (c4_accept_406 none [("get", ["application/json"])] [] "GET" "application/json").1
    (by decide) (by decide)
  have h4 := (c4_accept_406 none [] [("get", ["application/xml"])] "GET" "application/xml").1
    (by decide) (by decide)
  exact ⟨h1.1 (by decide), h2.1 (by decide), h3.2 (by decide), h4.2 (by decide)⟩

/-- C5: on a validation failure the emitted error has status 400 with
title `Bad Request` (or the error's own name); a parameter whose name
lower-cases to `content-type` gets 415 / `Unsupported Media Type`
instead, and a required parameter with a falsy accessed value gets 400 /
`Missing Value for Required Header` (the required-and-falsy override is
applied last and therefore wins when both apply); the detail text is the
validator's first reported detail message or `Validation Error`. -/
theorem c5_validator_error_shape (p : Parameter) (v : JsValue) (e : ValidationError) :
    ((validateInputError p v e).detail =
      match e.details with
      | some (d :: _) => if d.message ≠ "" then d.message else "Validation Error"
      | _ => "Validation Error") ∧
    (p.required = true → v.truthy = false →
      (validateInputError p v e).status = 400 ∧
      (validateInputError p v e).title = "Missing Value for Required Header") ∧
    (¬(p.required = true ∧ v.truthy = false) → strToLower p.name = "content-type" →
      (validateInputError p v e).status = 415 ∧
      (validateInputError p v e).title = "Unsupported Media Type") ∧
    (¬(p.required = true ∧ v.truthy = false) → strToLower p.name ≠ "content-type" →
      (validateInputError p v e).status = 400 ∧
      (validateInputError p v e).title = (if e.name ≠ "" then e.name else "Bad Request")) := by
  refine ⟨?_, ?_, ?_, ?_⟩
  · simp only [validateInputError]
    split_ifs <;> rfl
  · intro hreq hval
    simp [validateInputError, hreq, hval]
  · intro hnot hct
    have hne : p.name ≠ "" := by
      intro h0
      rw [h0] at hct
      exact absurd hct (by decide)
    simp [validateInputError, hnot, hne, hct]
  · intro hnot hct
    simp [validateInputError, hnot, hct]

/-- Witness for C5 at concrete inputs: a failing `Content-Type` header
parameter with a truthy value gets 415, a required parameter with a
falsy value gets the missing-value 400, and an ordinary parameter gets
400 with the error's own name as title. -/
theorem c5_validator_error_shape_witness :
    (validateInputError ⟨"Content-Type", false⟩ (.str "text/html")
      ⟨some [⟨"bad type"⟩], "ValidationError"⟩).status = 415 ∧
    (validateInputError ⟨"petId", true⟩ .undef ⟨none, ""⟩).title =
      "Missing Value for Required Header" ∧
    (validateInputError ⟨"petId", false⟩ (.str "3") ⟨some [], "MyErr"⟩).title = "MyErr" := by
  have h1 := (c5_validator_error_shape ⟨"Content-Type", false⟩ (.str "text/html")
    ⟨some [⟨"bad type"⟩], "ValidationError"⟩).2.2.1 (by decide) (by decide)
  have h2 := (c5_validator_error_shape ⟨"petId", true⟩ .undef ⟨none, ""⟩).2.1 rfl (by decide)
  have h3 := (c5_validator_error_shape ⟨"petId", false⟩ (.str "3")
    ⟨some [], "MyErr"⟩).2.2.2 (by decide) (by decide)
  exact ⟨h1.1, h2.2, h3.2.trans (by decide)⟩

/-- C6: the authorization middleware treats the scheme set as a logical
OR — if at least one scheme's authorize callback reports success the
request proceeds plainly to the next middleware; if every scheme either
lacks a callback or reports an error, `res.statusCode` is set to 401 and
the first collected failure's error (the first scheme's, since failures
are collected in key order) is forwarded to error handling. -/
theorem c6_authorize_or {ε : Type} (schemes : List (SchemeResult ε)) :
    (SchemeResult.ok ∈ schemes →
      authorizeFor schemes = { statusCode := none, nextArg := none }) ∧
    (∀ s0 rest, schemes = s0 :: rest → (∀ s ∈ schemes, s ≠ SchemeResult.ok) →
      authorizeFor schemes =
        { statusCode := some 401, nextArg := some (collectOf s0) }) := by
  constructor
  · intro h
    have h1 := asyncSome_of_ok schemes [] h
    unfold authorizeFor
    rcases heq : asyncSome schemes [] with ⟨b, errs⟩
    rw [heq] at h1
    simp at h1
    subst h1
    rfl
  · intro s0 rest hsch hall
    have h1 := asyncSome_of_allFail schemes [] hall
    unfold authorizeFor
    rw [h1]
    subst hsch
    simp

/-- Witness for C6 at concrete inputs: `[noCallback, ok]` authorizes
(OR semantics), `[fail 7, noCallback]` yields 401 with the first
failure's error forwarded. -/
theorem c6_authorize_or_witness :
    authorizeFor ([.noCallback, .ok] : List (SchemeResult Nat)) =
      { statusCode := none, nextArg := none } ∧
    authorizeFor ([.fail 7, .noCallback] : List (SchemeResult Nat)) =
      { statusCode := some 401, nextArg := some (.fromCb 7) } := by
  have h1 := (c6_authorize_or ([.noCallback, .ok] : List (SchemeResult Nat))).1 (by decide)
  have h2 := (c6_authorize_or ([.fail 7, .noCallback] : List (SchemeResult Nat))).2
    (.fail 7) [.noCallback] rfl (by decide)
  exact ⟨h1, h2⟩

/-- C7: registration of a route list with `N` operations over `M`
distinct resolved paths performs exactly `N` per-operation
method-handler registrations and attaches exactly one
not-allowed/content-negotiation middleware group per distinct resolved
path — the group keys are duplicate-free, coincide with the set of
resolved paths, and therefore number exactly `M`. -/
theorem c7_registration_counts (mountpath docspath : String) (routes : List Route) :
    (expressroutes mountpath docspath routes).opRegs.length = routes.length ∧
    ((expressroutes mountpath docspath routes).useRegs.map UseReg.path).Nodup ∧
    (∀ p, (p ∈ (expressroutes mountpath docspath routes).useRegs.map UseReg.path) ↔
      (p ∈ routes.map (fun r => buildRoutePath mountpath r.path))) ∧
    ((expressroutes mountpath docspath routes).useRegs.map UseReg.path).length =
      (routes.map (fun r => buildRoutePath mountpath r.path)).toFinset.card := by
  have hpaths : (expressroutes mountpath docspath routes).useRegs.map UseReg.path =
      (buildMethodMap mountpath routes).map Prod.fst := by
    simp [expressroutes, Function.comp]
  have hnodup : ((buildMethodMap mountpath routes).map Prod.fst).Nodup :=
    foldl_jsUpdate_keys_nodup (fun r => buildRoutePath mountpath r.path)
      (fun _ => []) (fun r ms => ms ++ [strToLower r.method]) routes [] (by simp)
  have hmem : ∀ p, (p ∈ (buildMethodMap mountpath routes).map Prod.fst) ↔
      (p ∈ routes.map (fun r => buildRoutePath mountpath r.path)) := by
    intro p
    have := foldl_jsUpdate_keys_mem (fun r => buildRoutePath mountpath r.path)
      (fun _ => []) (fun r ms => ms ++ [strToLower r.method]) routes [] p
    simpa [buildMethodMap] using this
  refine ⟨by simp [expressroutes], ?_, ?_, ?_⟩
  · rw [hpaths]; exact hnodup
  · intro p
    rw [hpaths]
    exact hmem p
  · rw [hpaths]
    have hfin : ((buildMethodMap mountpath routes).map Prod.fst).toFinset =
        (routes.map (fun r => buildRoutePath mountpath r.path)).toFinset := by
      ext x
      simp only [List.mem_toFinset]
      exact hmem x
    rw [← List.toFinset_card_of_nodup hnodup, hfin]

/-- C8 counterexample: a route whose handler is declared as an array is
mutated by `makeExpressRoute` — `route.handler` is reassigned to the
array's last element, so the route object is not left unchanged. -/
theorem c8_counterexample :
    ¬ ((makeExpressRoute "" ⟨"get", "/pets", .arr [1, 2], [], [], [], false⟩).1 =
       ⟨"get", "/pets", .arr [1, 2], [], [], [], false⟩) := by decide

/-- C8 amended: `makeExpressRoute` leaves every field of the route
except `handler` unchanged; `handler` is unchanged when it is a single
function or undefined, and is replaced by the array's last element (or
`undefined` for an empty array) when it is an array. -/
theorem c8_route_fields (mountpath : String) (r : Route) :
    ((makeExpressRoute mountpath r).1.method = r.method ∧
     (makeExpressRoute mountpath r).1.path = r.path ∧
     (makeExpressRoute mountpath r).1.validators = r.validators ∧
     (makeExpressRoute mountpath r).1.consumes = r.consumes ∧
     (makeExpressRoute mountpath r).1.produces = r.produces ∧
     (makeExpressRoute mountpath r).1.security = r.security) ∧
    (∀ h, r.handler = HandlerV.fn h → (makeExpressRoute mountpath r).1.handler = r.handler) ∧
    (r.handler = HandlerV.undef → (makeExpressRoute mountpath r).1.handler = r.handler) ∧
    (∀ hs, r.handler = HandlerV.arr hs →
      (makeExpressRoute mountpath r).1.handler =
        (match hs.getLast? with
         | some x => HandlerV.fn x
         | none => HandlerV.undef)) := by
  refine ⟨⟨rfl, rfl, rfl, rfl, rfl, rfl⟩, ?_, ?_, ?_⟩
  · intro h hh
    simp [makeExpressRoute, hh]
  · intro hh
    simp [makeExpressRoute, hh]
  · intro hs hh
    simp [makeExpressRoute, hh]

/-- Witness for C8 amended at concrete inputs: a single-function handler
is untouched, an array handler becomes its last element. -/
theorem c8_route_fields_witness :
    (makeExpressRoute "" ⟨"get", "/pets", .fn 5, [], [], [], false⟩).1.handler = .fn 5 ∧
    (makeExpressRoute "" ⟨"get", "/pets", .arr [1, 2], [], [], [], false⟩).1.handler = .fn 2 := by
  have h1 := ((c8_route_fields "" ⟨"get", "/pets", .fn 5, [], [], [], false⟩).2.1) 5 rfl
  have h2 := ((c8_route_fields "" ⟨"get", "/pets", .arr [1, 2], [], [], [], false⟩).2.2.2) [1, 2] rfl
  exact ⟨h1, h2.trans (by decide)⟩

/-- C9: the handler scaffolding groups API entries by normalized
pathname (path with parameterized segments removed) — one grouped
record per distinct pathname, whose method list is the concatenation of
the methods of every operation whose path normalizes to that pathname —
and the write loop touches exactly one handler file per grouped
pathname (a write when absent, only a warning when it already exists),
writes nothing else, never writes the same file twice and never
overwrites any path that exists at the time of the call (`mkdir`
included); `createModels` follows the same no-overwrite discipline. -/
theorem c9_scaffolding (handlersPath : String) (apis : List ApiPath) (fs0 : List String) :
    ((groupRoutes apis).map Prod.fst).Nodup ∧
    (∀ p, (p ∈ (groupRoutes apis).map Prod.fst) ↔
      (p ∈ apis.map (fun a => pathnameOf a.path))) ∧
    (∀ p, (jsGet (groupRoutes apis) p).map HandlerRoute.methods =
      (if p ∈ apis.map (fun a => pathnameOf a.path)
       then some ((apis.filter (fun a => pathnameOf a.path = p)).flatMap methodsOf)
       else none)) ∧
    replayOk fs0 (createHandlers handlersPath apis fs0).1 = true ∧
    (∀ p ∈ (groupRoutes apis).map Prod.fst,
      FsEvent.write (fileFor handlersPath p) ∈ (createHandlers handlersPath apis fs0).1 ∨
      FsEvent.warn (fileFor handlersPath p) ∈ (createHandlers handlersPath apis fs0).1) ∧
    (∀ q, FsEvent.write q ∈ (createHandlers handlersPath apis fs0).1 →
      ∃ p ∈ (groupRoutes apis).map Prod.fst, q = fileFor handlersPath p) ∧
    (writtenPaths (createHandlers handlersPath apis fs0).1).Nodup ∧
    (∀ modelsPath models, replayOk fs0 (createModels modelsPath models fs0).1 = true) := by
  have hpnkey : ∀ e ∈ groupRoutes apis, e.2.pathname = e.1 := by
    refine foldl_jsUpdate_forall (fun e : String × HandlerRoute => e.2.pathname = e.1)
      (fun a => pathnameOf a.path)
      (fun a => ({ path := a.path, pathname := pathnameOf a.path, methods := [] } : HandlerRoute))
      (fun a r => ({ r with methods := r.methods ++ methodsOf a } : HandlerRoute))
      (fun a => rfl) (fun a v hv => hv) apis [] (by simp)
  obtain ⟨hrep, _, ⟨tail, htail⟩, hfiles, hwrites⟩ :=
    createHandlers_go handlersPath fs0 (groupRoutes apis) [] fs0 rfl rfl
  refine ⟨?_, ?_, ?_, hrep, ?_, ?_, ?_, ?_⟩
  · exact foldl_jsUpdate_keys_nodup (fun a => pathnameOf a.path)
      (fun a => ({ path := a.path, pathname := pathnameOf a.path, methods := [] } : HandlerRoute))
      (fun a r => ({ r with methods := r.methods ++ methodsOf a } : HandlerRoute)) apis []
      (by simp)
  · intro p
    have := foldl_jsUpdate_keys_mem (fun a => pathnameOf a.path)
      (fun a => ({ path := a.path, pathname := pathnameOf a.path, methods := [] } : HandlerRoute))
      (fun a r => ({ r with methods := r.methods ++ methodsOf a } : HandlerRoute)) apis [] p
    simpa using this
  · intro p
    exact groupRoutes_go_methods apis [] p
  · intro p hp
    obtain ⟨pr, hpr, rfl⟩ := List.mem_map.mp hp
    have hpn := hpnkey pr hpr
    rcases hfiles pr hpr with hev | hev
    · exact Or.inl (by rwa [hpn] at hev)
    · exact Or.inr (by rwa [hpn] at hev)
  · intro q hq
    rcases hwrites q hq with hev | ⟨pr, hpr, hq'⟩
    · simp at hev
    · exact ⟨pr.1, List.mem_map.mpr ⟨pr, hpr, rfl⟩, by rwa [hpnkey pr hpr] at hq'⟩
  · exact (replayOk_written fs0 _ hrep).2
  · intro modelsPath models
    exact (createModels_go modelsPath fs0 models [] fs0 rfl rfl).1

/-- Witness for C9 at the spec's example: `/pets` and `/pets/{id}` share
the normalized pathname `pets`; their operations' methods are grouped
into the single record, and exactly one handler-file event targets
`handlers/pets.js`. -/
theorem c9_scaffolding_witness :
    ((jsGet (groupRoutes
      [⟨"/pets", [⟨"GET", "listPets", "Pets"⟩]⟩,
       ⟨"/pets/{id}", [⟨"get", "getPet", "Pet"⟩]⟩]) "pets").map HandlerRoute.methods =
      some [⟨"get", "listPets", "Pets"⟩, ⟨"get", "getPet", "Pet"⟩]) ∧
    (FsEvent.write (fileFor "handlers" "pets") ∈
      (createHandlers "handlers"
        [⟨"/pets", [⟨"GET", "listPets", "Pets"⟩]⟩,
         ⟨"/pets/{id}", [⟨"get", "getPet", "Pet"⟩]⟩] []).1 ∨
     FsEvent.warn (fileFor "handlers" "pets") ∈
      (createHandlers "handlers"
        [⟨"/pets", [⟨"GET", "listPets", "Pets"⟩]⟩,
         ⟨"/pets/{id}", [⟨"get", "getPet", "Pet"⟩]⟩] []).1) := by
  have h := c9_scaffolding "handlers"
    [⟨"/pets", [⟨"GET", "listPets", "Pets"⟩]⟩,
     ⟨"/pets/{id}", [⟨"get", "getPet", "Pet"⟩]⟩] []
  refine ⟨(h.2.2.1 "pets").trans (by decide), h.2.2.2.2.1 "pets" (by decide)⟩

/-- C10: in every middleware group attached by `expressroutes`, the
consumes and produces media-type lists recorded for each method are
duplicate-free, because each registration step passes them through the
first-occurrence filter. -/
theorem c10_media_lists_nodup (mountpath docspath : String) (routes : List Route) :
    ∀ u ∈ (expressroutes mountpath docspath routes).useRegs, ∀ m,
      ((jsGet u.consumes m).getD []).Nodup ∧ ((jsGet u.produces m).getD []).Nodup := by
  have key : ∀ (mediaOf : Route → List String)
      (tbl : List (String × List (String × List String))),
      (tbl = routes.foldl
        (fun acc r =>
          mediaMapStep acc (buildRoutePath mountpath r.path) (strToLower r.method)
            (mediaOf r)) []) →
      ∀ p m, ((jsGet ((jsGet tbl p).getD []) m).getD []).Nodup := by
    intro mediaOf tbl htbl p m
    have hP : ∀ k v, jsGet tbl k = some v →
        (∀ m', ((jsGet v m').getD []).Nodup) := by
      subst htbl
      refine foldl_jsUpdate_values
        (fun v => ∀ m', ((jsGet v m').getD []).Nodup)
        (fun r => buildRoutePath mountpath r.path)
        (fun _ => [])
        (fun r inner =>
          jsUpdate inner (strToLower r.method) []
            (fun cur => jsDedup (if (mediaOf r).length > 0 then cur ++ mediaOf r else cur)))
        ?_ ?_ routes [] (by simp [jsGet])
      · intro r m'
        rw [jsGet_jsUpdate]
        by_cases h : m' = strToLower r.method
        · simp only [if_pos h, Option.getD_some]
          exact jsDedup_nodup _
        · simp [if_neg h, jsGet]
      · intro r inner hinner m'
        rw [jsGet_jsUpdate]
        by_cases h : m' = strToLower r.method
        · simp only [if_pos h, Option.getD_some]
          exact jsDedup_nodup _
        · rw [if_neg h]
          exact hinner m'
    rcases hv : jsGet tbl p with _ | v
    · simp [jsGet]
    · simpa using hP p v hv m
  intro u hu m
  simp only [expressroutes, List.mem_map] at hu
  obtain ⟨pm, _, rfl⟩ := hu
  constructor
  · exact key (fun r => r.consumes) _ rfl pm.1 m
  · exact key (fun r => r.produces) _ rfl pm.1 m

/-- Witness for C10 at a concrete input: a route declaring
`application/json` twice is recorded with a single, duplicate-free
consumes list. -/
theorem c10_media_lists_nodup_witness :
    ((jsGet ([("post", ["application/json"])] : List (String × List String)) "post").getD
      []).Nodup := by
  have h := c10_media_lists_nodup "" "/api-docs"
    [⟨"post", "/pets", .fn 1, [], ["application/json", "application/json"], [], false⟩]
    { path := "/pets", methods := ["post"],
      consumes := [("post", ["application/json"])],
      produces := [("post", [])] } (by decide) "post"
  exact h.1
